import Mathlib

/-!
Verification of the MyLocalBoard replication core against its specification.

The Go sources are embedded shallowly:
* `internal/state` operation store (`BoardState`, `Apply`, `Strokes`,
  `Save`/`Load`/`restore`) and its data types (`Stroke`, `Op`);
* `internal/state/spaceManager.go` (`SpaceManager` and its methods);
* the transport broadcast loop of `Transport.Broadcast`.

Conventions of the embedding:
* Go `float32` coordinates are modelled as exact integers `Int`; the code
  only adds, subtracts, doubles and compares coordinates, all its numeric
  constants (10, 1200, 900, the stroke width 2) are integers, and every
  concrete instance below is small, so no rounding behaviour is involved in
  the properties considered here.
* Go `time.Time` instants are modelled as `Int` (an absolute instant, e.g.
  nanoseconds since an epoch); `Time.Before` is the strict order `<`.
* Go `map[string]T` values are modelled as association lists with unique
  keys, with Go's assignment (overwrite-or-append), lookup and delete.
* Mutexes guard but never change the sequential meaning of each method, so
  each method is modelled as a pure function of the receiver state.
-/

namespace MyLocalBoard

/-! ## Association-list model of `map[string]T` -/

/-- Go map lookup `v, ok := m[k]`: the unique binding of `k`, if any. -/
def mlookup {α : Type} : List (String × α) → String → Option α
  | [], _ => none
  | (k', v) :: t, k => if k' = k then some v else mlookup t k

/-- Go map assignment `m[k] = v`: replace the binding of `k`, else append. -/
def mset {α : Type} : List (String × α) → String → α → List (String × α)
  | [], k, v => [(k, v)]
  | (k', v') :: t, k, v => if k' = k then (k, v) :: t else (k', v') :: mset t k v

/-- Go map deletion `delete(m, k)`: drop the binding of `k`, if present. -/
def mdel {α : Type} : List (String × α) → String → List (String × α)
  | [], _ => []
  | (k', v') :: t, k => if k' = k then t else (k', v') :: mdel t k

/-- Number of bindings a key has in an association list. -/
def countKey {α : Type} (m : List (String × α)) (k : String) : Nat :=
  (m.map Prod.fst).count k

theorem mlookup_mset_self {α : Type} (m : List (String × α)) (k : String) (v : α) :
    mlookup (mset m k v) k = some v := by
  induction m with
  | nil => simp [mset, mlookup]
  | cons p t ih =>
    obtain ⟨k', v'⟩ := p
    by_cases h : k' = k
    · simp [mset, h, mlookup]
    · simp [mset, h, mlookup, ih]

theorem mset_of_not_mem {α : Type} (m : List (String × α)) (k : String) (v : α)
    (h : mlookup m k = none) : mset m k v = m ++ [(k, v)] := by
  induction m with
  | nil => simp [mset]
  | cons p t ih =>
    obtain ⟨k', v'⟩ := p
    by_cases hk : k' = k
    · simp [mlookup, hk] at h
    · simp [mlookup, hk] at h
      simp [mset, hk, ih h]

theorem countKey_eq_zero_of_lookup_none {α : Type} (m : List (String × α)) (k : String)
    (h : mlookup m k = none) : countKey m k = 0 := by
  induction m with
  | nil => simp [countKey]
  | cons p t ih =>
    obtain ⟨k', v'⟩ := p
    by_cases hk : k' = k
    · simp [mlookup, hk] at h
    · simp [mlookup, hk] at h
      simp [countKey, List.count_cons] at ih ⊢
      exact ⟨ih h, fun hkk => (hk hkk).elim⟩

theorem mdel_append_of_not_mem {α : Type} (l1 l2 : List (String × α)) (k : String)
    (h : k ∉ l1.map Prod.fst) : mdel (l1 ++ l2) k = l1 ++ mdel l2 k := by
  induction l1 with
  | nil => simp
  | cons p t ih =>
    obtain ⟨k', v'⟩ := p
    simp only [List.map_cons, List.mem_cons] at h
    push_neg at h
    have hk : k' ≠ k := fun e => h.1 e.symm
    simp [mdel, hk, ih h.2]

/-! ## Data types of the operation store (`internal/state`, part_004) -/

/-- Go `state.Point`: a 2-D point with `float32` coordinates, modelled as
exact integers. -/
structure Point where
  x : Int
  y : Int
deriving DecidableEq

/-- The `image/color.Color` value held in a `Stroke`: the nil interface or a
concrete color value.  `color.Black` (the color every `NewStrokeOp` stroke
carries) is `color.Gray16{Y: 0}`; all other concrete standard colors are
likewise plain structs and behave identically under `encoding/json`, so one
concrete constructor suffices for the properties below. -/
inductive GoColor where
  | nil : GoColor
  | gray16 (y : Nat) : GoColor
deriving DecidableEq

/-- Go `state.Stroke`. -/
structure Stroke where
  id : String
  points : List Point
  color : GoColor
  width : Int
  time : Int
deriving DecidableEq

/-- Go constant `state.OpInsertStroke`. -/
def OpInsertStroke : String := "insert_stroke"

/-- Go constant `state.OpDeleteStroke`. -/
def OpDeleteStroke : String := "delete_stroke"

/-- Go `state.Op`: `Stroke` is a possibly-nil pointer, modelled as `Option`. -/
structure Op where
  type : String
  stroke : Option Stroke
  target : String
  lamport : Nat
  site : String
deriving DecidableEq

/-! ## The operation store (`BoardState`, part_002) -/

/-- Go `state.BoardState`: the stroke map plus the insertion-order list. -/
structure BoardState where
  strokes : List (String × Stroke)
  order : List String
deriving DecidableEq

/-- Go `state.NewBoardState`. -/
def NewBoardState : BoardState := ⟨[], []⟩

/-- Go `(*BoardState).Apply` (part_002 lines 35-59): returns the updated
state and the `applied` boolean. -/
def BoardState.Apply (s : BoardState) (op : Op) : BoardState × Bool :=
  if op.type = OpInsertStroke then
    match op.stroke with
    | none => (s, false)
    | some st =>
      if st.id = "" then (s, false)
      else if (mlookup s.strokes st.id).isSome then (s, false)
      else ({ strokes := mset s.strokes st.id st, order := s.order ++ [st.id] }, true)
  else if op.type = OpDeleteStroke then
    if op.target = "" then (s, false)
    else if (mlookup s.strokes op.target).isNone then (s, false)
    else ({ strokes := mdel s.strokes op.target,
            order := s.order.filter (fun id => id != op.target) }, true)
  else (s, false)

/-- The pre-sort content of `(*BoardState).Strokes`: walk `order` and keep
every id still present in the stroke map. -/
def currentStrokes (s : BoardState) : List Stroke :=
  s.order.filterMap (fun id => mlookup s.strokes id)

/-- The comparison `out[i].Time.Before(out[j].Time)` used by
`sort.SliceStable` in `(*BoardState).Strokes`. -/
def timeBefore (a b : Stroke) : Prop := a.time < b.time

instance : DecidableRel timeBefore := fun a b => inferInstanceAs (Decidable (a.time < b.time))

/-- The total preorder complementing `timeBefore`: `a` may stay before `b`
exactly when `b` is not strictly earlier. -/
def strokeLe (a b : Stroke) : Prop := a.time ≤ b.time

instance : DecidableRel strokeLe := fun a b => inferInstanceAs (Decidable (a.time ≤ b.time))

instance : IsTotal Stroke strokeLe := ⟨fun a b => Int.le_total a.time b.time⟩

instance : IsTrans Stroke strokeLe := ⟨fun _ _ _ h1 h2 => le_trans h1 h2⟩

/-- Go `(*BoardState).Strokes` (part_002 lines 61-74): collect the strokes
in `order` and stable-sort them by `Time.Before`.  A stable sort with
respect to the strict `less` relation `timeBefore` is, for any total
preorder, unique, and equals insertion sort with the complementary preorder
`strokeLe` (ties keep their input order, strictly later elements move
back); `List.insertionSort` is that stable sort. -/
def BoardState.Strokes (s : BoardState) : List Stroke :=
  (currentStrokes s).insertionSort strokeLe

/-! ## The space arbiter (`internal/state/spaceManager.go`) -/

/-- Go `state.DrawingArea`: an axis-aligned rectangle. -/
structure DrawingArea where
  x : Int
  y : Int
  width : Int
  height : Int
deriving DecidableEq

/-- Go `state.Position`: a point on the canvas. -/
structure Position where
  x : Int
  y : Int
deriving DecidableEq

/-- Go `state.SpaceRegion`.  The `ClaimedAt time.Time` field is omitted: it
is written with `time.Now()` and never read by any `SpaceManager` logic. -/
structure SpaceRegion where
  area : DrawingArea
  owner : String
  pathIDs : List String
deriving DecidableEq

/-- Go `state.SpaceManager`: the occupied-region list and the per-client
allocated-area map. -/
structure SpaceManager where
  regions : List SpaceRegion
  allocatedAreas : List (String × DrawingArea)
deriving DecidableEq

/-- Go `state.NewSpaceManager`. -/
def NewSpaceManager : SpaceManager := ⟨[], []⟩

/-- Go `(*SpaceManager).regionsOverlap` (lines 171-174). -/
def regionsOverlap (a b : DrawingArea) : Bool :=
  !(decide (a.x + a.width < b.x) || decide (b.x + b.width < a.x) ||
    decide (a.y + a.height < b.y) || decide (b.y + b.height < a.y))

/-- Go `(*SpaceManager).pointInArea` (lines 176-179). -/
def pointInArea (p : Position) (area : DrawingArea) : Bool :=
  decide (p.x ≥ area.x) && decide (p.x ≤ area.x + area.width) &&
  decide (p.y ≥ area.y) && decide (p.y ≤ area.y + area.height)

/-- Go `(*SpaceManager).isAreaOccupied` (lines 162-169). -/
def SpaceManager.isAreaOccupied (sm : SpaceManager) (area : DrawingArea) : Bool :=
  sm.regions.any (fun region => regionsOverlap area region.area)

/-- Go `(*SpaceManager).pointInOccupiedRegion` (lines 181-188). -/
def SpaceManager.pointInOccupiedRegion (sm : SpaceManager) (p : Position)
    (excludeOwner : String) : Bool :=
  sm.regions.any (fun region => region.owner != excludeOwner && pointInArea p region.area)

/-- Go `(*SpaceManager).isAreaInBounds` (lines 215-219). -/
def isAreaInBounds (area : DrawingArea) : Bool :=
  decide (area.x ≥ 0) && decide (area.y ≥ 0) &&
  decide (area.x + area.width ≤ 1200) && decide (area.y + area.height ≤ 900)

/-- The candidate rectangle `requestedArea` translated by `(dx, dy)`, as
built inside `findAlternativeArea`. -/
def translateArea (req : DrawingArea) (dx dy : Int) : DrawingArea :=
  { x := req.x + dx, y := req.y + dy, width := req.width, height := req.height }

/-- Go `(*SpaceManager).findAlternativeArea` (lines 190-213): probe the four
offsets below/above/right/left in order and return the first candidate that
is unoccupied and in bounds. -/
def SpaceManager.findAlternativeArea (sm : SpaceManager) (req : DrawingArea) :
    Option DrawingArea :=
  let offsets : List (Int × Int) :=
    [(0, req.height + 10), (0, -(req.height + 10)),
     (req.width + 10, 0), (-(req.width + 10), 0)]
  (offsets.map (fun o => translateArea req o.1 o.2)).find?
    (fun alt => !sm.isAreaOccupied alt && isAreaInBounds alt)

/-- Go `(*SpaceManager).AllocateSpace` (lines 45-63): returns the updated
manager and the granted area (`nil` pointer modelled as `none`). -/
def SpaceManager.AllocateSpace (sm : SpaceManager) (clientID : String)
    (requestedArea : DrawingArea) : SpaceManager × Option DrawingArea :=
  if sm.isAreaOccupied requestedArea then
    match sm.findAlternativeArea requestedArea with
    | some alternative =>
      ({ sm with allocatedAreas := mset sm.allocatedAreas clientID alternative },
       some alternative)
    | none => (sm, none)
  else
    ({ sm with allocatedAreas := mset sm.allocatedAreas clientID requestedArea },
     some requestedArea)

/-- Go `(*SpaceManager).mergeRegions` (lines 221-252): bounding union of the
two areas, path-id lists concatenated, other fields from `existing`. -/
def mergeRegions (existing newR : SpaceRegion) : SpaceRegion :=
  let minX := if newR.area.x < existing.area.x then newR.area.x else existing.area.x
  let minY := if newR.area.y < existing.area.y then newR.area.y else existing.area.y
  let maxX := if existing.area.x + existing.area.width < newR.area.x + newR.area.width
    then newR.area.x + newR.area.width else existing.area.x + existing.area.width
  let maxY := if existing.area.y + existing.area.height < newR.area.y + newR.area.height
    then newR.area.y + newR.area.height else existing.area.y + existing.area.height
  { existing with
    area := ⟨minX, minY, maxX - minX, maxY - minY⟩,
    pathIDs := existing.pathIDs ++ newR.pathIDs }

/-- The merge loop of `ClaimSpace` (lines 107-120): replace the first
same-owner overlapping region by the merge, else append the new region. -/
def insertRegion (regions : List SpaceRegion) (region : SpaceRegion) : List SpaceRegion :=
  match regions with
  | [] => [region]
  | r :: t =>
    if r.owner == region.owner && regionsOverlap region.area r.area then
      mergeRegions r region :: t
    else
      r :: insertRegion t region

/-- Go `(*SpaceManager).ClaimSpace` (lines 66-121): bounding box of the
points, padded by 10, merged into a same-owner overlapping region or
appended.  The Go loop ranges over all of `points` starting the running
min/max at `points[0]`, which the folds reproduce. -/
def SpaceManager.ClaimSpace (sm : SpaceManager) (pathID owner : String)
    (points : List Position) : SpaceManager :=
  match points with
  | [] => sm
  | p0 :: _ =>
    let minX := points.foldl (fun m p => if p.x < m then p.x else m) p0.x
    let maxX := points.foldl (fun m p => if m < p.x then p.x else m) p0.x
    let minY := points.foldl (fun m p => if p.y < m then p.y else m) p0.y
    let maxY := points.foldl (fun m p => if m < p.y then p.y else m) p0.y
    let padding : Int := 10
    let region : SpaceRegion :=
      { area := { x := minX - padding, y := minY - padding,
                  width := maxX - minX + 2 * padding,
                  height := maxY - minY + 2 * padding },
        owner := owner,
        pathIDs := [pathID] }
    { sm with regions := insertRegion sm.regions region }

/-- Go `(*SpaceManager).CanDrawInArea` (lines 124-158). -/
def SpaceManager.CanDrawInArea (sm : SpaceManager) (clientID : String)
    (points : List Position) : Bool :=
  if points.isEmpty then false
  else if clientID == "host" then true
  else
    match mlookup sm.allocatedAreas clientID with
    | none => false
    | some allocatedArea =>
      if !points.all (fun p => pointInArea p allocatedArea) then false
      else if points.any (fun p => sm.pointInOccupiedRegion p clientID) then false
      else true

/-! ## Persistence (`Save`/`Load`/`restore`, part_002 lines 77-105)

`encoding/json` is modelled at the level of JSON values: `Save` produces the
JSON document it writes, `Load` takes the JSON document found in the file.
Numbers are exact integers; a `time.Time` is encoded as its instant, which
is faithful to RFC 3339 round-tripping in that encoding is injective and
decoding inverts it. -/

/-- A JSON value as produced/consumed by `encoding/json`. -/
inductive Jsonv where
  | null : Jsonv
  | num (q : Int) : Jsonv
  | str (s : String) : Jsonv
  | arr (xs : List Jsonv) : Jsonv
  | obj (fields : List (String × Jsonv)) : Jsonv

/-- Go `json.Marshal` of a `color.Color` interface value: the nil interface
marshals to `null`, a concrete color struct marshals to its field object
(`color.Gray16{Y: y}` to `{"Y": y}`). -/
def encodeColor : GoColor → Jsonv
  | .nil => .null
  | .gray16 y => .obj [("Y", .num (y : Int))]

/-- Go `json.Unmarshal` into the non-empty interface type `color.Color`:
`encoding/json` can populate a non-empty interface field only from JSON
`null`; any other value yields an `UnmarshalTypeError`. -/
def decodeColor : Jsonv → Except String GoColor
  | .null => .ok .nil
  | _ => .error "json: cannot unmarshal value into Go struct field Stroke.Color of type color.Color"

/-- Go `json.Marshal` of a `state.Point` (exported fields `X`, `Y`). -/
def encodePoint (p : Point) : Jsonv :=
  .obj [("X", .num p.x), ("Y", .num p.y)]

/-- Go `json.Unmarshal` of a `state.Point`. -/
def decodePoint : Jsonv → Except String Point
  | .obj [("X", .num x), ("Y", .num y)] => .ok ⟨x, y⟩
  | _ => .error "json: cannot unmarshal value into Go value of type state.Point"

/-- Go `json.Marshal` of a `time.Time` instant. -/
def encodeTime (t : Int) : Jsonv := .num t

/-- Go `json.Unmarshal` of a `time.Time` instant. -/
def decodeTime : Jsonv → Except String Int
  | .num q => .ok q
  | _ => .error "json: cannot unmarshal value into Go value of type time.Time"

/-- Go `json.Marshal` of a `state.Stroke` (exported fields, declaration
order: `ID`, `Points`, `Color`, `Width`, `Time`). -/
def encodeStroke (s : Stroke) : Jsonv :=
  .obj [("ID", .str s.id),
        ("Points", .arr (s.points.map encodePoint)),
        ("Color", encodeColor s.color),
        ("Width", .num s.width),
        ("Time", encodeTime s.time)]

/-- Go `json.Unmarshal` of a `state.Stroke`. -/
def decodeStroke : Jsonv → Except String Stroke
  | .obj [("ID", .str id), ("Points", .arr pts), ("Color", c), ("Width", .num w), ("Time", t)] => do
    let points ← pts.mapM decodePoint
    let color ← decodeColor c
    let time ← decodeTime t
    pure ⟨id, points, color, w, time⟩
  | _ => .error "json: cannot unmarshal value into Go value of type state.Stroke"

/-- Go `json.Unmarshal` into `[]state.Stroke`, as done by `Load`. -/
def decodeStrokes : Jsonv → Except String (List Stroke)
  | .arr xs => xs.mapM decodeStroke
  | _ => .error "json: cannot unmarshal value into Go value of type []state.Stroke"

/-- Go `state.restore` (part_002 lines 96-105): rebuild the map and the
order list from the loaded slice (the id is appended to `order`
unconditionally, exactly as in the Go loop). -/
def restore (strokes : List Stroke) : BoardState :=
  strokes.foldl
    (fun st s => { strokes := mset st.strokes s.id s, order := st.order ++ [s.id] })
    NewBoardState

/-- Go `state.Save` (part_002 lines 77-81): the JSON document written to the
file — `json.MarshalIndent` of the `Strokes()` snapshot (indentation does
not change the JSON value).  The global state is passed explicitly. -/
def Save (st : BoardState) : Jsonv :=
  .arr (st.Strokes.map encodeStroke)

/-- Go `state.Load` (part_002 lines 83-90): unmarshal the file's JSON
document into `[]Stroke` and `restore` on success; on failure return the
error with the state untouched.  The file read is modelled by passing the
document; result is the new global state plus the returned error. -/
def Load (st : BoardState) (fileContents : Jsonv) : BoardState × Option String :=
  match decodeStrokes fileContents with
  | .error e => (st, some e)
  | .ok loaded => (restore loaded, none)

/-! ## Transport broadcast (`internal/net`, part_001 lines 82-92) -/

/-- A peer's TCP connection, abstracted to the one observable that matters
to `Broadcast`: whether a write on it succeeds. -/
structure Conn where
  writeOk : Bool
deriving DecidableEq

/-- Go `net.Transport`, restricted to the peer registry (the listener,
port, mdns handle and callback play no part in `Broadcast`). -/
structure Transport where
  peers : List (String × Conn)
deriving DecidableEq

/-- Go `json.Marshal` of a `state.Op` (exported fields, declaration order). -/
def marshalOp (op : Op) : Jsonv :=
  .obj [("Type", .str op.type),
        ("Stroke", match op.stroke with | none => .null | some s => encodeStroke s),
        ("Target", .str op.target),
        ("Lamport", .num (op.lamport : Int)),
        ("Site", .str op.site)]

/-- One write performed by the broadcast loop: the destination address, the
payload handed to `fmt.Fprintln`, and the delimiter `Fprintln` appends. -/
structure WriteEvent where
  addr : String
  payload : Jsonv
  delim : Char

/-- One iteration of the `Broadcast` loop body (part_001 lines 85-90): write
`msg` plus newline to the peer; on write failure close the connection and
delete the peer from the registry. -/
def broadcastStep (msg : Jsonv) (acc : Transport × List WriteEvent)
    (p : String × Conn) : Transport × List WriteEvent :=
  let written := acc.2 ++ [⟨p.1, msg, '\n'⟩]
  if p.2.writeOk then (acc.1, written)
  else (⟨mdel acc.1.peers p.1⟩, written)

/-- Go `(*Transport).Broadcast` (part_001 lines 82-92): marshal the
operation once, then run the loop over the registry.  Returns the transport
after the call together with the list of writes performed.  Iterating the
Go map while deleting entries is sound (a deleted entry was already
visited), so the loop is a fold over the registry as it was on entry. -/
def Transport.Broadcast (t : Transport) (op : Op) : Transport × List WriteEvent :=
  let msg := marshalOp op
  t.peers.foldl (broadcastStep msg) (t, [])

/-! ## Concrete inputs used by witnesses and counterexamples -/

/-- An insert operation for a given stroke, as built by `NewStrokeOp` /
received from a peer. -/
def insOp (st : Stroke) : Op := ⟨OpInsertStroke, some st, "", 0, ""⟩

/-- A concrete stroke. -/
def strokeW : Stroke := ⟨"w", [⟨1, 2⟩], .nil, 2, 3⟩

/-- A concrete stroke carrying `color.Black` (`Gray16{Y: 0}`), exactly what
`NewStrokeOp` attaches to every locally drawn stroke. -/
def demoStroke : Stroke := ⟨"s1", [⟨1, 2⟩], .gray16 0, 2, 5⟩

/-- A store holding exactly `demoStroke`. -/
def demoState : BoardState := (NewBoardState.Apply (insOp demoStroke)).1

theorem countKey_append_singleton {α : Type} (m : List (String × α)) (k : String) (v : α) :
    countKey (m ++ [(k, v)]) k = countKey m k + 1 := by
  simp [countKey]

/-! ## C1: Insert idempotence / first writer wins -/

/-- C1: applying the same Insert operation twice yields exactly one stroke
with that ID — the second `Apply` returns `false` and leaves the state
unchanged; more generally an Insert whose stroke ID already exists is
rejected with the state unchanged, and a successful Insert leaves exactly
one binding of the ID in the stroke map. -/
theorem C1_insert_first_writer_wins (s : BoardState) (op : Op) (st : Stroke)
    (ht : op.type = OpInsertStroke) (hs : op.stroke = some st) :
    ((mlookup s.strokes st.id).isSome → s.Apply op = (s, false)) ∧
    (s.Apply op).1.Apply op = ((s.Apply op).1, false) ∧
    ((s.Apply op).2 = true → countKey (s.Apply op).1.strokes st.id = 1) := by
  by_cases hid : st.id = ""
  · have h1 : s.Apply op = (s, false) := by
      simp [BoardState.Apply, ht, hs, hid]
    refine ⟨fun _ => h1, ?_, ?_⟩
    · rw [h1]; exact h1
    · intro h2; rw [h1] at h2; exact absurd h2 (by simp)
  · by_cases hex : (mlookup s.strokes st.id).isSome
    · have h1 : s.Apply op = (s, false) := by
        simp [BoardState.Apply, ht, hs, hid, hex]
      refine ⟨fun _ => h1, ?_, ?_⟩
      · rw [h1]; exact h1
      · intro h2; rw [h1] at h2; exact absurd h2 (by simp)
    · have hnone : mlookup s.strokes st.id = none :=
        Option.not_isSome_iff_eq_none.mp hex
      have h1 : s.Apply op =
          (⟨mset s.strokes st.id st, s.order ++ [st.id]⟩, true) := by
        simp [BoardState.Apply, ht, hs, hid, hex]
      refine ⟨fun h => absurd h hex, ?_, ?_⟩
      · rw [h1]
        simp [BoardState.Apply, ht, hs, hid, mlookup_mset_self]
      · intro _
        rw [h1]
        simp only
        rw [mset_of_not_mem s.strokes st.id st hnone, countKey_append_singleton,
          countKey_eq_zero_of_lookup_none s.strokes st.id hnone]

/-- Witness for C1 at a concrete input: inserting `strokeW` into the empty
store and re-applying the same operation. -/
theorem C1_witness :
    (NewBoardState.Apply (insOp strokeW)).1.Apply (insOp strokeW)
      = ((NewBoardState.Apply (insOp strokeW)).1, false) ∧
    countKey (NewBoardState.Apply (insOp strokeW)).1.strokes "w" = 1 := by
  have h := C1_insert_first_writer_wins NewBoardState (insOp strokeW) strokeW rfl rfl
  exact ⟨h.2.1, h.2.2 (by decide)⟩

/-! ## C6: Delete of a missing target is a residue-free no-op -/

/-- C6: a Delete whose target is not present returns `false` and leaves the
state (stroke map and render order) unchanged, so any subsequent operation —
in particular an Insert of that same ID — behaves exactly as if the Delete
had never been applied. -/
theorem C6_delete_missing_is_noop (s : BoardState) (op : Op)
    (ht : op.type = OpDeleteStroke) (h : mlookup s.strokes op.target = none) :
    s.Apply op = (s, false) ∧ ∀ op2 : Op, (s.Apply op).1.Apply op2 = s.Apply op2 := by
  have hd : OpDeleteStroke ≠ OpInsertStroke := by decide
  have h1 : s.Apply op = (s, false) := by
    by_cases htgt : op.target = ""
    · simp [BoardState.Apply, ht, hd, htgt]
    · simp [BoardState.Apply, ht, hd, htgt, h]
  exact ⟨h1, fun op2 => by rw [h1]⟩

/-- Witness for C6 at a concrete input: deleting the absent id `"ghost"`
from the empty store, then inserting `strokeW`. -/
theorem C6_witness :
    NewBoardState.Apply ⟨OpDeleteStroke, none, "ghost", 0, ""⟩ = (NewBoardState, false) ∧
    (NewBoardState.Apply ⟨OpDeleteStroke, none, "ghost", 0, ""⟩).1.Apply (insOp strokeW)
      = NewBoardState.Apply (insOp strokeW) := by
  have h := C6_delete_missing_is_noop NewBoardState ⟨OpDeleteStroke, none, "ghost", 0, ""⟩ rfl rfl
  exact ⟨h.1, h.2 (insOp strokeW)⟩

/-! ## C7: a failed Load leaves the state untouched -/

/-- C7: if unmarshalling the file contents fails, `Load` surfaces the error
and the in-memory state is exactly what it was before the call; if it
succeeds, the state is fully replaced by the restored strokes. -/
theorem C7_load_failure_preserves_state (st : BoardState) (j : Jsonv) :
    (∀ e, decodeStrokes j = .error e → Load st j = (st, some e)) ∧
    (∀ l, decodeStrokes j = .ok l → Load st j = (restore l, none)) := by
  constructor <;> intro x hx <;> simp [Load, hx]

/-- Witness for C7 at concrete inputs: a non-array document fails and leaves
the state unchanged; the empty array succeeds and replaces the state. -/
theorem C7_witness :
    Load NewBoardState Jsonv.null
      = (NewBoardState,
         some "json: cannot unmarshal value into Go value of type []state.Stroke") ∧
    Load NewBoardState (Jsonv.arr []) = (restore [], none) :=
  ⟨(C7_load_failure_preserves_state NewBoardState Jsonv.null).1 _ rfl,
   (C7_load_failure_preserves_state NewBoardState (Jsonv.arr [])).2 [] rfl⟩

/-! ## C8: the Save/Load round trip (code bug) -/

/-- C8 fails on the code: `Save` of a store holding one stroke succeeds and
writes the JSON array, but `Load` of that very document fails —
`json.Unmarshal` cannot populate the non-empty interface field
`Stroke.Color` (type `color.Color`) from the marshalled color object — so
the state is never restored.  Evaluation of the code at the failing input:
the saved store is non-empty, yet loading what was saved errors and leaves
the destination state untouched instead of holding the saved stroke set. -/
theorem C8_roundtrip_fails_on_color :
    demoState.strokes = [("s1", demoStroke)] ∧
    (Load NewBoardState (Save demoState)).2.isSome = true ∧
    (Load NewBoardState (Save demoState)).1 = NewBoardState := by
  refine ⟨by decide, by decide, by decide⟩

/-! ## C5: Snapshot order -/

/-- The store obtained by inserting two strokes into the empty store, in the
given order. -/
def insertTwo (a b : Stroke) : BoardState :=
  ((NewBoardState.Apply (insOp a)).1.Apply (insOp b)).1

/-- A concrete stroke with timestamp 0. -/
def strokeA : Stroke := ⟨"a", [], .nil, 2, 0⟩

/-- A second concrete stroke with the same timestamp 0. -/
def strokeB : Stroke := ⟨"b", [], .nil, 2, 0⟩

/-- A concrete stroke with timestamp 7 (distinct from `strokeW`'s 3). -/
def strokeC : Stroke := ⟨"c", [], .nil, 2, 7⟩

/-- Counterexample to C5 as stated: two stores holding the same stroke set
(strokes `"a"` and `"b"`, equal timestamps) but with different insertion
orders produce different `Strokes()` sequences — ties are kept in insertion
order, not broken by ID, so the order is not independent of arrival order. -/
theorem C5_counterexample_tied_timestamps :
    currentStrokes (insertTwo strokeA strokeB) = [strokeA, strokeB] ∧
    currentStrokes (insertTwo strokeB strokeA) = [strokeB, strokeA] ∧
    (currentStrokes (insertTwo strokeA strokeB)).Perm
      (currentStrokes (insertTwo strokeB strokeA)) ∧
    strokeA.time = strokeB.time ∧
    (insertTwo strokeA strokeB).Strokes = [strokeA, strokeB] ∧
    (insertTwo strokeB strokeA).Strokes = [strokeB, strokeA] ∧
    (insertTwo strokeA strokeB).Strokes ≠ (insertTwo strokeB strokeA).Strokes := by
  refine ⟨by decide, by decide, by decide, by decide, by decide, by decide, by decide⟩

/-- C5 amended: `Strokes()` returns all current strokes sorted by timestamp
ascending, and the sort is stable (insertion order is preserved on ties, not
broken by ID); consequently the sequence is a deterministic total order
independent of arrival order exactly when the timestamps are pairwise
distinct: two stores holding the same stroke set with pairwise distinct
timestamps produce identical `Strokes()` sequences. -/
theorem C5_snapshot_sorted_deterministic (s1 s2 : BoardState)
    (hperm : (currentStrokes s1).Perm (currentStrokes s2))
    (hd : (currentStrokes s1).Pairwise (fun a b => a.time ≠ b.time)) :
    (s1.Strokes).Perm (currentStrokes s1) ∧
    s1.Strokes.Sorted strokeLe ∧
    s1.Strokes = s2.Strokes := by
  have hp1 : s1.Strokes.Perm (currentStrokes s1) := List.perm_insertionSort strokeLe _
  have hp2 : s2.Strokes.Perm (currentStrokes s2) := List.perm_insertionSort strokeLe _
  have hs1 : s1.Strokes.Sorted strokeLe := List.sorted_insertionSort strokeLe _
  have hs2 : s2.Strokes.Sorted strokeLe := List.sorted_insertionSort strokeLe _
  have hpp : s1.Strokes.Perm s2.Strokes := hp1.trans (hperm.trans hp2.symm)
  have hd1 : s1.Strokes.Pairwise (fun a b => a.time ≠ b.time) :=
    (hp1.pairwise_iff (fun h => Ne.symm h)).mpr hd
  have hd2 : s2.Strokes.Pairwise (fun a b => a.time ≠ b.time) :=
    (hpp.pairwise_iff (fun h => Ne.symm h)).mp hd1
  have hlt1 : s1.Strokes.Pairwise timeBefore :=
    (hs1.and hd1).imp (fun h => lt_of_le_of_ne h.1 h.2)
  have hlt2 : s2.Strokes.Pairwise timeBefore :=
    (hs2.and hd2).imp (fun h => lt_of_le_of_ne h.1 h.2)
  haveI : IsAntisymm Stroke timeBefore :=
    ⟨fun _ _ h1 h2 => absurd (lt_trans h1 h2) (lt_irrefl _)⟩
  exact ⟨hp1, hs1, List.eq_of_perm_of_sorted hpp hlt1 hlt2⟩

/-- Witness for C5 (amended) at a concrete input: strokes `"w"` (time 3) and
`"c"` (time 7) inserted in either order give the same sorted snapshot. -/
theorem C5_witness :
    ((insertTwo strokeW strokeC).Strokes).Perm (currentStrokes (insertTwo strokeW strokeC)) ∧
    (insertTwo strokeW strokeC).Strokes.Sorted strokeLe ∧
    (insertTwo strokeW strokeC).Strokes = (insertTwo strokeC strokeW).Strokes :=
  C5_snapshot_sorted_deterministic (insertTwo strokeW strokeC) (insertTwo strokeC strokeW)
    (by decide) (by decide)

/-! ## C2: characterization of `CanDrawInArea` -/

theorem pointInOccupiedRegion_iff (sm : SpaceManager) (p : Position) (excludeOwner : String) :
    sm.pointInOccupiedRegion p excludeOwner = true ↔
      ∃ r ∈ sm.regions, r.owner ≠ excludeOwner ∧ pointInArea p r.area = true := by
  simp [SpaceManager.pointInOccupiedRegion, List.any_eq_true, Bool.and_eq_true, bne_iff_ne]

/-- Counterexample to C2 as stated: the empty-point-list guard runs before
the host check, so `CanDrawInArea` returns `false` for the privileged
`"host"` identity on the empty point list, while the claim says host is
permitted for every point list. -/
theorem C2_counterexample_host_empty :
    NewSpaceManager.CanDrawInArea "host" [] = false := by
  decide

/-- C2 amended: `CanDrawInArea` returns `false` on the empty point list for
every identity; on a non-empty point list the host identity is always
permitted, and any other identity is permitted iff it has a current
allocated area, every point lies inside that area, and no point lies inside
a region owned by a different identity. -/
theorem C2_can_draw_characterization (sm : SpaceManager) (clientID : String)
    (points : List Position) :
    sm.CanDrawInArea clientID points = true ↔
      (points ≠ [] ∧
        (clientID = "host" ∨
          ∃ area, mlookup sm.allocatedAreas clientID = some area ∧
            (∀ p ∈ points, pointInArea p area = true) ∧
            (∀ p ∈ points, ∀ r ∈ sm.regions, r.owner ≠ clientID →
              pointInArea p r.area = false))) := by
  rcases hps : points with _ | ⟨p0, ps⟩
  · simp [SpaceManager.CanDrawInArea]
  · by_cases hhost : clientID = "host"
    · simp [SpaceManager.CanDrawInArea, hhost]
    · cases halloc : mlookup sm.allocatedAreas clientID with
      | none => simp [SpaceManager.CanDrawInArea, hhost, halloc]
      | some area =>
        by_cases hall : (p0 :: ps).all (fun p => pointInArea p area) = true
        · by_cases hany : (p0 :: ps).any (fun p => sm.pointInOccupiedRegion p clientID) = true
          · have hL : sm.CanDrawInArea clientID (p0 :: ps) = false := by
              simp [SpaceManager.CanDrawInArea, hhost, halloc, hall, hany]
            rw [hL]
            simp only [Bool.false_eq_true, false_iff]
            rintro ⟨-, hor⟩
            rcases hor with h | ⟨area', harea', -, hnoconf⟩
            · exact hhost h
            · injection harea' with harea'
              subst harea'
              rcases List.any_eq_true.mp hany with ⟨p, hp, hocc⟩
              rcases (pointInOccupiedRegion_iff sm p clientID).mp hocc with ⟨r, hr, hro, hin⟩
              rw [hnoconf p hp r hr hro] at hin
              exact Bool.false_ne_true hin
          · have hL : sm.CanDrawInArea clientID (p0 :: ps) = true := by
              simp [SpaceManager.CanDrawInArea, hhost, halloc, hall, hany]
            rw [hL]
            simp only [true_iff]
            refine ⟨by simp, .inr ⟨area, rfl, List.all_eq_true.mp hall, ?_⟩⟩
            intro p hp r hr hro
            by_contra hin
            have hin' : pointInArea p r.area = true := by
              cases hv : pointInArea p r.area with
              | false => exact absurd hv hin
              | true => rfl
            exact hany (List.any_eq_true.mpr
              ⟨p, hp, (pointInOccupiedRegion_iff sm p clientID).mpr ⟨r, hr, hro, hin'⟩⟩)
        · have hL : sm.CanDrawInArea clientID (p0 :: ps) = false := by
            simp [SpaceManager.CanDrawInArea, hhost, halloc, hall]
          rw [hL]
          simp only [Bool.false_eq_true, false_iff]
          rintro ⟨-, hor⟩
          rcases hor with h | ⟨area', harea', hin, -⟩
          · exact hhost h
          · injection harea' with harea'
            subst harea'
            exact hall (List.all_eq_true.mpr hin)

/-- Witness for C2 (amended) at concrete inputs: host with a non-empty point
list is permitted on the empty manager. -/
theorem C2_witness :
    NewSpaceManager.CanDrawInArea "host" [⟨1, 1⟩] = true :=
  (C2_can_draw_characterization NewSpaceManager "host" [⟨1, 1⟩]).mpr
    ⟨by decide, Or.inl rfl⟩

/-! ## C3: region exclusivity -/

/-- The arbiter state after owner `"A"` claims a path at the origin. -/
def smA : SpaceManager := NewSpaceManager.ClaimSpace "p1" "A" [⟨0, 0⟩]

/-- The arbiter state after owners `"A"` and then `"B"` each claim a path at
the same origin point. -/
def claimed2 : SpaceManager := smA.ClaimSpace "p2" "B" [⟨0, 0⟩]

/-- Counterexample to C3 as stated: `claimed2` is reachable by two
`ClaimSpace` calls, holds regions owned by the distinct identities `"A"` and
`"B"`, and the point `(0,0)` lies in both regions — `ClaimSpace` never
checks other owners' regions, so region exclusivity is not a state
invariant. -/
theorem C3_counterexample_overlapping_claims :
    claimed2.regions.map (fun r => r.owner) = ["A", "B"] ∧
    claimed2.regions.map (fun r => r.area) =
      [⟨-10, -10, 20, 20⟩, ⟨-10, -10, 20, 20⟩] ∧
    claimed2.regions.all (fun r => pointInArea ⟨0, 0⟩ r.area) = true :=
  ⟨by decide, by decide, by decide⟩

/-- C3 amended: exclusivity is advisory, enforced by the gate rather than
held as a state invariant — for any arbiter state, any non-host identity is
denied by `CanDrawInArea` whenever one of its points lies inside a region
owned by a different identity. -/
theorem C3_advisory_exclusivity (sm : SpaceManager) (clientID : String)
    (points : List Position) (p : Position) (r : SpaceRegion)
    (hhost : clientID ≠ "host") (hp : p ∈ points) (hr : r ∈ sm.regions)
    (hro : r.owner ≠ clientID) (hpr : pointInArea p r.area = true) :
    sm.CanDrawInArea clientID points = false := by
  rcases points with _ | ⟨p0, ps⟩
  · cases hp
  · cases halloc : mlookup sm.allocatedAreas clientID with
    | none => simp [SpaceManager.CanDrawInArea, hhost, halloc]
    | some area =>
      by_cases hall : (p0 :: ps).all (fun q => pointInArea q area) = true
      · have hany : (p0 :: ps).any (fun q => sm.pointInOccupiedRegion q clientID) = true :=
          List.any_eq_true.mpr
            ⟨p, hp, (pointInOccupiedRegion_iff sm p clientID).mpr ⟨r, hr, hro, hpr⟩⟩
        simp [SpaceManager.CanDrawInArea, hhost, halloc, hall, hany]
      · simp [SpaceManager.CanDrawInArea, hhost, halloc, hall]

/-- Witness for C3 (amended) at a concrete input: after `"A"`'s claim,
`"B"` may not draw at the origin. -/
theorem C3_witness :
    smA.CanDrawInArea "B" [⟨0, 0⟩] = false :=
  C3_advisory_exclusivity smA "B" [⟨0, 0⟩] ⟨0, 0⟩ ⟨⟨-10, -10, 20, 20⟩, "A", ["p1"]⟩
    (by decide) (by decide) (by decide) (by decide) (by decide)

/-! ## C4: the four-candidate probe of `AllocateSpace` -/

/-- The "below" candidate: the requested rectangle translated down by its
own height plus the margin 10. -/
def candBelow (req : DrawingArea) : DrawingArea := translateArea req 0 (req.height + 10)

/-- The "above" candidate. -/
def candAbove (req : DrawingArea) : DrawingArea := translateArea req 0 (-(req.height + 10))

/-- The "right" candidate. -/
def candRight (req : DrawingArea) : DrawingArea := translateArea req (req.width + 10) 0

/-- The "left" candidate. -/
def candLeft (req : DrawingArea) : DrawingArea := translateArea req (-(req.width + 10)) 0

/-- A candidate is usable when it overlaps no region and is within the
canvas bounds. -/
def candOk (sm : SpaceManager) (a : DrawingArea) : Bool :=
  !sm.isAreaOccupied a && isAreaInBounds a

/-- C4: when the requested area overlaps some region, `AllocateSpace`
returns the first of the four candidates below/above/right/left (each
translated by the rectangle's own height or width plus the margin 10) that
is unoccupied and in bounds; if the "below" candidate is usable it is
returned; if all four candidates fail, `AllocateSpace` returns none. -/
theorem C4_alternative_probe (sm : SpaceManager) (clientID : String) (req : DrawingArea)
    (h : sm.isAreaOccupied req = true) :
    (sm.AllocateSpace clientID req).2 =
      [candBelow req, candAbove req, candRight req, candLeft req].find? (candOk sm) ∧
    (candOk sm (candBelow req) = true →
      (sm.AllocateSpace clientID req).2 = some (candBelow req)) ∧
    ((∀ c ∈ [candBelow req, candAbove req, candRight req, candLeft req],
        candOk sm c = false) →
      (sm.AllocateSpace clientID req).2 = none) := by
  have hfind : sm.findAlternativeArea req =
      [candBelow req, candAbove req, candRight req, candLeft req].find? (candOk sm) := rfl
  have key : (sm.AllocateSpace clientID req).2 = sm.findAlternativeArea req := by
    cases hF : sm.findAlternativeArea req with
    | some alt => simp [SpaceManager.AllocateSpace, h, hF]
    | none => simp [SpaceManager.AllocateSpace, h, hF]
  refine ⟨key.trans hfind, fun hb => ?_, fun hall => ?_⟩
  · rw [key, hfind]
    exact List.find?_cons_of_pos _ hb
  · rw [key, hfind]
    exact List.find?_eq_none.mpr (fun x hx => by simp [hall x hx])

/-- Witness for C4 at a concrete input: the requested rectangle
`(0,0)-(20,20)` overlaps `"A"`'s region in `smA`, its "below" neighbor is
free and in bounds, and `AllocateSpace` returns exactly that neighbor,
offset by the height 20 plus the margin 10. -/
theorem C4_witness :
    (smA.AllocateSpace "B" ⟨0, 0, 20, 20⟩).2 = some (candBelow ⟨0, 0, 20, 20⟩) ∧
    candBelow ⟨0, 0, 20, 20⟩ = ⟨0, 30, 20, 20⟩ :=
  ⟨(C4_alternative_probe smA "B" ⟨0, 0, 20, 20⟩ (by decide)).2.1 (by decide), by decide⟩

/-! ## C10: the requested area is granted without a bounds check -/

/-- C10: when the requested area overlaps no existing region,
`AllocateSpace` records it for the client and returns it unchanged — with no
in-bounds requirement anywhere in this path (the bounds check guards only
the four alternative candidates), and without touching the region list. -/
theorem C10_requested_area_granted_unchecked (sm : SpaceManager) (clientID : String)
    (req : DrawingArea) (h : sm.isAreaOccupied req = false) :
    (sm.AllocateSpace clientID req).2 = some req ∧
    mlookup (sm.AllocateSpace clientID req).1.allocatedAreas clientID = some req ∧
    (sm.AllocateSpace clientID req).1.regions = sm.regions := by
  have key : sm.AllocateSpace clientID req =
      ({ sm with allocatedAreas := mset sm.allocatedAreas clientID req }, some req) := by
    simp [SpaceManager.AllocateSpace, h]
  rw [key]
  exact ⟨rfl, mlookup_mset_self sm.allocatedAreas clientID req, rfl⟩

/-- Witness for C10 at a concrete input: a rectangle far outside the canvas
bounds `(0,0)-(1200,900)` is still granted as-is on the empty manager. -/
theorem C10_witness :
    isAreaInBounds ⟨5000, 5000, 100, 100⟩ = false ∧
    (NewSpaceManager.AllocateSpace "cli" ⟨5000, 5000, 100, 100⟩).2
      = some ⟨5000, 5000, 100, 100⟩ ∧
    mlookup (NewSpaceManager.AllocateSpace "cli" ⟨5000, 5000, 100, 100⟩).1.allocatedAreas "cli"
      = some ⟨5000, 5000, 100, 100⟩ := by
  have h := C10_requested_area_granted_unchecked NewSpaceManager "cli"
    ⟨5000, 5000, 100, 100⟩ (by decide)
  exact ⟨by decide, h.1, h.2.1⟩

/-! ## C9: frame conditions of `Broadcast` -/

/-- The write the broadcast loop performs for one peer: the shared payload
plus the newline `fmt.Fprintln` appends. -/
def mkWrite (msg : Jsonv) (p : String × Conn) : WriteEvent := ⟨p.1, msg, '\n'⟩

theorem broadcast_loop (msg : Jsonv) (iter : List (String × Conn)) :
    ∀ (done : List (String × Conn)) (ws : List WriteEvent),
      ((done ++ iter).map Prod.fst).Nodup →
      iter.foldl (broadcastStep msg) (⟨done ++ iter⟩, ws) =
        (⟨done ++ iter.filter (fun p => p.2.writeOk)⟩, ws ++ iter.map (mkWrite msg)) := by
  induction iter with
  | nil =>
    intro done ws _
    simp
  | cons p tl ih =>
    intro done ws hnd
    rw [List.foldl_cons]
    cases hok : p.2.writeOk with
    | true =>
      have hstep : broadcastStep msg (⟨done ++ p :: tl⟩, ws) p
          = (⟨done ++ p :: tl⟩, ws ++ [mkWrite msg p]) := by
        simp [broadcastStep, hok, mkWrite]
      rw [hstep]
      have hassoc : done ++ p :: tl = (done ++ [p]) ++ tl := by simp
      have hnd' : (((done ++ [p]) ++ tl).map Prod.fst).Nodup := by
        rw [← hassoc]; exact hnd
      rw [hassoc, ih (done ++ [p]) (ws ++ [mkWrite msg p]) hnd']
      simp [hok, List.filter_cons]
    | false =>
      have hnotin : p.1 ∉ done.map Prod.fst := by
        rw [List.map_append, List.nodup_append] at hnd
        intro hmem
        exact hnd.2.2 hmem (by simp)
      have hdel : mdel (done ++ p :: tl) p.1 = done ++ tl := by
        rw [mdel_append_of_not_mem done (p :: tl) p.1 hnotin]
        simp [mdel]
      have hstep : broadcastStep msg (⟨done ++ p :: tl⟩, ws) p
          = (⟨done ++ tl⟩, ws ++ [mkWrite msg p]) := by
        simp [broadcastStep, hok, mkWrite, hdel]
      rw [hstep]
      have hnd' : ((done ++ tl).map Prod.fst).Nodup := by
        refine List.Nodup.sublist (List.Sublist.map Prod.fst ?_) hnd
        exact (List.sublist_cons_self p tl).append_left done
      rw [ih done (ws ++ [mkWrite msg p]) hnd']
      simp [hok, List.filter_cons]

/-- C9: `Broadcast` marshals the operation once and performs exactly one
write per registered peer — each carrying the same payload, newline
delimited, in registry order — and afterwards the registry is the registry
before the call with exactly the peers whose write failed removed; every
peer whose write succeeded is still registered, unchanged. -/
theorem C9_broadcast_frame (t : Transport) (op : Op)
    (hnd : (t.peers.map Prod.fst).Nodup) :
    (t.Broadcast op).2 = t.peers.map (mkWrite (marshalOp op)) ∧
    (t.Broadcast op).1.peers = t.peers.filter (fun p => p.2.writeOk) ∧
    ∀ p ∈ t.peers, p.2.writeOk = true → p ∈ (t.Broadcast op).1.peers := by
  obtain ⟨ps⟩ := t
  have key := broadcast_loop (marshalOp op) ps [] [] (by simpa using hnd)
  simp only [List.nil_append] at key
  have hB : Transport.Broadcast ⟨ps⟩ op
      = (⟨ps.filter (fun p => p.2.writeOk)⟩, ps.map (mkWrite (marshalOp op))) := by
    simpa [Transport.Broadcast] using key
  refine ⟨by rw [hB], by rw [hB], ?_⟩
  intro p hp hok
  rw [hB]
  exact List.mem_filter.mpr ⟨hp, hok⟩

/-- A concrete two-peer registry: one healthy connection, one whose write
fails. -/
def demoTransport : Transport := ⟨[("good", ⟨true⟩), ("bad", ⟨false⟩)]⟩

/-- Witness for C9 at a concrete input: broadcasting an insert to
`demoTransport` writes the same payload to both peers and drops exactly the
failing one. -/
theorem C9_witness :
    (demoTransport.Broadcast (insOp strokeW)).2
      = demoTransport.peers.map (mkWrite (marshalOp (insOp strokeW))) ∧
    (demoTransport.Broadcast (insOp strokeW)).1.peers = [("good", ⟨true⟩)] ∧
    ("good", (⟨true⟩ : Conn)) ∈ (demoTransport.Broadcast (insOp strokeW)).1.peers := by
  have h := C9_broadcast_frame demoTransport (insOp strokeW) (by decide)
  refine ⟨h.1, ?_, h.2.2 ("good", ⟨true⟩) (by decide) rfl⟩
  rw [h.2.1]
  rfl

end MyLocalBoard
